import Mathlib

/-!
Verification development for the MindTrace journaling core
(`src/sentiment.py`, `src/utils.py`, and the history-page filter
composition in `src/app.py`).

Modelling conventions:

* Wall-clock times are integers counting seconds.  The store writes entry
  timestamps with `strftime("%Y-%m-%d %H:%M")` (minute resolution) and
  `get_recent_entries` parses them back with the same pattern, so the
  format/parse round trip is truncation to the minute; an `Entry.timestamp`
  therefore holds the already-parsed value, a multiple of 60 produced by
  `minuteFloor`.  `created_at` / `last_updated` are written with
  `isoformat()` (full resolution) and are held as raw integers.
* Python floats carrying VADER compound scores are modelled as rationals;
  the thresholds `0.05` / `-0.05` are the exact rationals `1/20` / `-1/20`.
* The JSON file behind `DataManager` is modelled by `Disk`: it is missing,
  unparseable, or holds a parsed journal record.  `_load_data` catches
  `FileNotFoundError` / `JSONDecodeError` and returns a fallback dict, so it
  is a total function into `JournalData`; the fallback dict has no
  `last_updated` key, which is why that field is an `Option`.
* Every store operation is given in state-passing form
  `Disk → ... → result × Disk`, the second component being the disk after
  the call; operations that only ever read return the disk unchanged.
* The VADER scorer itself is a black box, passed as a function
  `String → ℚ`; `analyze_sentiment` is parametric in it, which also makes
  "the scorer is not invoked" provable as independence from that argument.
-/

namespace MindTrace

/-- One journal entry, as stored in the `entries` array of
`data/journal_log.json` (`src/utils.py`, `add_entry`). -/
structure Entry where
  timestamp : ℤ
  text : String
  sentiment : String
  score : ℚ
deriving DecidableEq

/-- The parsed journal record: the dict handled by `_load_data` /
`_save_data`.  `last_updated` is optional because the fallback dict built in
`_load_data` (utils.py line 35) lacks that key, while `entries` and
`created_at` are present in every dict the module ever builds. -/
structure JournalData where
  entries : List Entry
  created_at : ℤ
  last_updated : Option ℤ
deriving DecidableEq

/-- State of the backing record `journal_log.json`: absent, present but
unparseable, or present and parsed. -/
inductive Disk where
  | missing : Disk
  | corrupt : Disk
  | valid : JournalData → Disk
deriving DecidableEq

/-- Truncation of a second-resolution time to minute resolution, the effect
of writing with `strftime("%Y-%m-%d %H:%M")` and re-parsing with
`strptime`. -/
def minuteFloor (t : ℤ) : ℤ := t - t % 60

/-- Result of `SentimentAnalyzer.analyze_sentiment`: the returned dict with
keys `sentiment` and `score`. -/
structure SentimentResult where
  sentiment : String
  score : ℚ
deriving DecidableEq

/-- `SentimentAnalyzer.analyze_sentiment` (src/sentiment.py lines 17-45).
`scorer` stands for `self.analyzer.polarity_scores(text)['compound']`.  The
Python guard `not text or text.strip() == ""` holds exactly when every
character of the text is whitespace (an empty string included), which is the
condition used here. -/
def analyze_sentiment (scorer : String → ℚ) (text : String) : SentimentResult :=
  if text.data.all Char.isWhitespace then
    ⟨"Neutral", 0⟩
  else
    let compound_score := scorer text
    if compound_score ≥ 0.05 then ⟨"Positive", compound_score⟩
    else if compound_score ≤ -0.05 then ⟨"Negative", compound_score⟩
    else ⟨"Neutral", compound_score⟩

/-- `DataManager._load_data` (utils.py lines 29-35): returns the parsed
record, or on `FileNotFoundError` / `JSONDecodeError` the fallback dict
`{"entries": [], "created_at": now}` — note the fallback has no
`last_updated` key.  Totality of this function is the "never raise" policy:
both failure modes are caught. -/
def _load_data (disk : Disk) (now : ℤ) : JournalData :=
  match disk with
  | Disk.valid d => d
  | _ => ⟨[], now, none⟩

/-- `DataManager._save_data` (utils.py lines 37-41): sets `last_updated` to
now and writes the record, which then parses back verbatim. -/
def _save_data (d : JournalData) (now : ℤ) : Disk :=
  Disk.valid { d with last_updated := some now }

/-- `DataManager.add_entry` (utils.py lines 43-56): load, build the entry
with a minute-resolution timestamp, append, save, return the entry. -/
def add_entry (disk : Disk) (text sentiment : String) (score : ℚ) (now : ℤ) :
    Entry × Disk :=
  let data := _load_data disk now
  let entry : Entry := ⟨minuteFloor now, text, sentiment, score⟩
  let data2 : JournalData := { data with entries := data.entries ++ [entry] }
  (entry, _save_data data2 now)

/-- `DataManager.get_all_entries` (utils.py lines 58-61): load and project the
`entries` field (`data.get("entries", [])`; the key is always present in a
`JournalData`).  Read-only: the disk comes back unchanged. -/
def get_all_entries (disk : Disk) (now : ℤ) : List Entry × Disk :=
  ((_load_data disk now).entries, disk)

/-- Arguments of one `add_entry` call, with the wall-clock time at which the
call happens. -/
structure AddCall where
  text : String
  sentiment : String
  score : ℚ
  now : ℤ
deriving DecidableEq

/-- The entry that `add_entry` builds from one call. -/
def mkEntry (c : AddCall) : Entry :=
  ⟨minuteFloor c.now, c.text, c.sentiment, c.score⟩

/-- A sequence of `add_entry` calls, threaded through the disk state. -/
def addAll (disk : Disk) (calls : List AddCall) : Disk :=
  calls.foldl (fun d c => (add_entry d c.text c.sentiment c.score c.now).2) disk

/-- Python `dict` update `sentiment_counts[s] = sentiment_counts.get(s, 0) + 1`
on an insertion-ordered association list. -/
def updateCount : List (String × ℕ) → String → List (String × ℕ)
  | [], s => [(s, 1)]
  | (k, v) :: rest, s =>
      if k = s then (k, v + 1) :: rest else (k, v) :: updateCount rest s

/-- Python `max(entries, key=lambda x: x["score"])`: CPython `max` scans left
to right and replaces the champion only on a strictly greater key, so ties
keep the first occurrence.  `none` on the empty list (the code guards with
`if entries else None`). -/
def pymax (l : List Entry) : Option Entry :=
  match l with
  | [] => none
  | x :: xs => some (xs.foldl (fun acc y => if acc.score < y.score then y else acc) x)

/-- Python `min(entries, key=lambda x: x["score"])`: replaces the champion
only on a strictly smaller key, so ties keep the first occurrence. -/
def pymin (l : List Entry) : Option Entry :=
  match l with
  | [] => none
  | x :: xs => some (xs.foldl (fun acc y => if y.score < acc.score then y else acc) x)

/-- The statistics dict returned by `DataManager.get_statistics`. -/
structure Statistics where
  total_entries : ℕ
  sentiment_distribution : List (String × ℕ)
  average_score : ℚ
  best_day : Option Entry
  worst_day : Option Entry
deriving DecidableEq

/-- Body of `DataManager.get_statistics` (utils.py lines 74-107) after the
initial `entries = self.get_all_entries()` line: a pure function of the
entry list. -/
def compute_statistics (entries : List Entry) : Statistics :=
  if entries = [] then
    ⟨0, [], 0, none, none⟩
  else
    let sentiment_counts := entries.foldl (fun c e => updateCount c e.sentiment) []
    let scores := entries.map (fun e => e.score)
    let avg_score := if scores = [] then 0 else scores.sum / scores.length
    ⟨entries.length, sentiment_counts, avg_score, pymax entries, pymin entries⟩

/-- `DataManager.get_statistics`: loads the entries and computes; read-only on
the disk. -/
def get_statistics (disk : Disk) (now : ℤ) : Statistics × Disk :=
  (compute_statistics (get_all_entries disk now).1, disk)

/-- `DataManager.get_recent_entries` (utils.py lines 128-143): cutoff is
`now - days` days (`pd.Timedelta(days=days)` = `days * 86400` seconds); the
loop keeps, in order, every entry whose parsed timestamp is `>=` the cutoff,
appending to an accumulator.  Read-only on the disk. -/
def get_recent_entries (disk : Disk) (days : ℤ) (now : ℤ) : List Entry × Disk :=
  let entries := (get_all_entries disk now).1
  if entries = [] then ([], disk)
  else
    let cutoff := now - days * 86400
    (entries.foldl (fun acc e => if cutoff ≤ e.timestamp then acc ++ [e] else acc) [],
     disk)

/-- Stable insertion of an entry after all already-placed entries with a
timestamp less than or equal to its own. -/
def insertByTs (e : Entry) : List Entry → List Entry
  | [] => [e]
  | x :: xs => if x.timestamp ≤ e.timestamp then x :: insertByTs e xs else e :: x :: xs

/-- Stable sort by timestamp, modelling `df.sort_values('timestamp')` in
`get_entries_as_dataframe`. -/
def sortByTs (l : List Entry) : List Entry := l.foldr insertByTs []

/-- `DataManager.get_entries_as_dataframe` (utils.py lines 63-72), with the
`DataFrame` modelled as the timestamp-sorted entry list (empty frame for no
entries).  Read-only on the disk. -/
def get_entries_as_dataframe (disk : Disk) (now : ℤ) : List Entry × Disk :=
  let entries := (get_all_entries disk now).1
  if entries = [] then ([], disk) else (sortByTs entries, disk)

/-- ASCII lower-casing of one CSV field with minimal quoting, abstracting the
rendering `pandas.DataFrame.to_csv` applies to a string cell.  No claim
depends on the exact characters produced. -/
def csvField (s : String) : String :=
  if s.contains ',' || s.contains '\"' || s.contains '\n' then
    "\"" ++ s.foldl (fun acc c =>
      acc ++ (if c = '\"' then "\"\"" else String.singleton c)) "" ++ "\""
  else s

/-- One CSV row of an entry, column order `timestamp,text,sentiment,score`. -/
def entryRow (e : Entry) : String :=
  toString e.timestamp ++ "," ++ csvField e.text ++ "," ++ csvField e.sentiment
    ++ "," ++ toString e.score ++ "\n"

/-- The `to_csv(index=False)` payload: header plus one row per (sorted)
entry; an empty frame renders as a bare newline. -/
def entriesToCsv (entries : List Entry) : String :=
  if entries = [] then "\n"
  else "timestamp,text,sentiment,score\n" ++ String.join (entries.map entryRow)

/-- The error raised by `export_data` for an unknown format: the spec's
`UnsupportedFormat` (`ValueError("Unsupported format. Use 'json' or 'csv'")`
in the code). -/
inductive ExportError where
  | unsupportedFormat : ExportError
deriving DecidableEq

/-- The value `export_data` returns: the loaded record for `json`, a CSV
string for `csv`. -/
inductive ExportPayload where
  | json : JournalData → ExportPayload
  | csv : String → ExportPayload
deriving DecidableEq

/-- ASCII version of Python `str.lower()` (all format strings involved are
ASCII). -/
def lowerStr (s : String) : String := ⟨s.data.map Char.toLower⟩

/-- `DataManager.export_data` (utils.py lines 109-117): dispatch on
`format.lower()`; `json` returns `self._load_data()` verbatim, `csv` returns
the dataframe rendering, anything else raises.  Read-only on the disk. -/
def export_data (disk : Disk) (format : String) (now : ℤ) :
    Except ExportError ExportPayload × Disk :=
  if lowerStr format = "json" then
    (Except.ok (ExportPayload.json (_load_data disk now)), disk)
  else if lowerStr format = "csv" then
    (Except.ok (ExportPayload.csv (entriesToCsv (get_entries_as_dataframe disk now).1)),
     disk)
  else
    (Except.error ExportError.unsupportedFormat, disk)

/-- The proposition that the `json` export of a store state carries all three
top-level fields.  `entries` and `created_at` are present in every
`JournalData` by construction; `last_updated` is the one field that can be
absent, so presence of all three reduces to `last_updated` being set. -/
def jsonExportAllThree (disk : Disk) (now : ℤ) : Prop :=
  ∀ d, (export_data disk "json" now).1 = Except.ok (ExportPayload.json d) →
    d.last_updated.isSome = true

/-- The Journal History filter composition (src/app.py lines 260-269): start
from all entries, filter by sentiment unless the sentinel `"All"` is chosen,
then — for a concrete day window — recompute the recent subset via
`get_recent_entries` and keep the entries that are members of it (Python
`e in recent_entries`, value equality). -/
def history_filtered (disk : Disk) (sentiment_filter : String) (days now : ℤ) :
    List Entry :=
  let entries := (get_all_entries disk now).1
  let f1 := if sentiment_filter = "All" then entries
            else entries.filter (fun e => e.sentiment = sentiment_filter)
  let recent := (get_recent_entries disk days now).1
  f1.filter (fun e => decide (e ∈ recent))

/-- Direct conjunctive filtering, the spec's intended semantics for the
history page (spec section 4.4): one pass keeping entries that match the
label and lie inside the recency window. -/
def direct_conjunctive_filter (entries : List Entry) (label : String)
    (days now : ℤ) : List Entry :=
  entries.filter (fun e => decide (e.sentiment = label) &&
    decide (now - days * 86400 ≤ e.timestamp))

/-- The first list element attaining the maximum score: the first entry whose
score is greater than or equal to every entry's score. -/
def firstMaxEntry (l : List Entry) : Option Entry :=
  l.find? (fun e => l.all (fun y => decide (y.score ≤ e.score)))

/-- The first list element attaining the minimum score: the first entry whose
score is less than or equal to every entry's score. -/
def firstMinEntry (l : List Entry) : Option Entry :=
  l.find? (fun e => l.all (fun y => decide (e.score ≤ y.score)))

/-- Helper: `analyze_sentiment` on a non-blank text is the threshold
classification of the score the scorer assigns to it. -/
theorem analyze_sentiment_of_not_blank (scorer : String → ℚ) (text : String)
    (hb : text.data.all Char.isWhitespace = false) :
    analyze_sentiment scorer text =
      (if scorer text ≥ 0.05 then ⟨"Positive", scorer text⟩
       else if scorer text ≤ -0.05 then ⟨"Negative", scorer text⟩
       else ⟨"Neutral", scorer text⟩ : SentimentResult) := by
  simp [analyze_sentiment, hb]

/-- C1: with `s` the compound polarity score of the text, the label returned
by `analyze_sentiment` is `Positive` iff `s ≥ 0.05`, `Negative` iff
`s ≤ -0.05`, and `Neutral` iff `-0.05 < s < 0.05`, with exact boundaries.
The hypothesis `hblank` records the one fact used about VADER: a text with no
token (empty or all-whitespace) has compound score `0`, which is what makes
the short-circuit branch agree with the thresholds. -/
theorem analyze_sentiment_thresholds (scorer : String → ℚ) (text : String) (s : ℚ)
    (hs : scorer text = s)
    (hblank : text.data.all Char.isWhitespace = true → s = 0) :
    ((analyze_sentiment scorer text).sentiment = "Positive" ↔ (0.05 : ℚ) ≤ s)
    ∧ ((analyze_sentiment scorer text).sentiment = "Negative" ↔ s ≤ -(0.05 : ℚ))
    ∧ ((analyze_sentiment scorer text).sentiment = "Neutral" ↔
        -(0.05 : ℚ) < s ∧ s < (0.05 : ℚ)) := by
  by_cases hb : text.data.all Char.isWhitespace
  · have hz : s = 0 := hblank hb
    subst hz
    have hres : analyze_sentiment scorer text = ⟨"Neutral", 0⟩ := by
      simp [analyze_sentiment, hb]
    rw [hres]
    refine ⟨?_, ?_, ?_⟩ <;> simp <;> norm_num
  · have hbf : text.data.all Char.isWhitespace = false := by
      simpa using hb
    rw [analyze_sentiment_of_not_blank scorer text hbf, hs]
    split_ifs with h1 h2
    · refine ⟨?_, ?_, ?_⟩
      · show ("Positive" = "Positive") ↔ (0.05 : ℚ) ≤ s
        simp [h1]
      · show ("Positive" = "Negative") ↔ s ≤ -(0.05 : ℚ)
        constructor
        · intro h; exact absurd h (by decide)
        · intro h; exact absurd h1 (not_le.mpr (by linarith))
      · show ("Positive" = "Neutral") ↔ -(0.05 : ℚ) < s ∧ s < (0.05 : ℚ)
        constructor
        · intro h; exact absurd h (by decide)
        · intro h; exact absurd h1 (not_le.mpr h.2)
    · refine ⟨?_, ?_, ?_⟩
      · show ("Negative" = "Positive") ↔ (0.05 : ℚ) ≤ s
        constructor
        · intro h; exact absurd h (by decide)
        · intro h; exact absurd h h1
      · show ("Negative" = "Negative") ↔ s ≤ -(0.05 : ℚ)
        simp [h2]
      · show ("Negative" = "Neutral") ↔ -(0.05 : ℚ) < s ∧ s < (0.05 : ℚ)
        constructor
        · intro h; exact absurd h (by decide)
        · intro h; exact absurd h2 (not_le.mpr h.1)
    · push_neg at h1 h2
      refine ⟨?_, ?_, ?_⟩
      · show ("Neutral" = "Positive") ↔ (0.05 : ℚ) ≤ s
        constructor
        · intro h; exact absurd h (by decide)
        · intro h; exact absurd h (not_le.mpr h1)
      · show ("Neutral" = "Negative") ↔ s ≤ -(0.05 : ℚ)
        constructor
        · intro h; exact absurd h (by decide)
        · intro h; exact absurd h (not_le.mpr h2)
      · show ("Neutral" = "Neutral") ↔ -(0.05 : ℚ) < s ∧ s < (0.05 : ℚ)
        exact ⟨fun hx => ⟨h2, h1⟩, fun hx => rfl⟩

/-- Witness for C1: at the exact boundary score `0.05` on a non-blank text
the label is `Positive`. -/
theorem analyze_sentiment_thresholds_witness :
    (analyze_sentiment (fun _t => 0.05) "good").sentiment = "Positive" :=
  (analyze_sentiment_thresholds (fun _t => 0.05) "good" 0.05 rfl
    (by decide)).1.mpr (by norm_num)

/-- C7: on an empty or all-whitespace text, `analyze_sentiment` returns
`("Neutral", 0.0)`; the result is stated for an arbitrary scorer, so the
underlying scorer is provably not consulted. -/
theorem analyze_sentiment_blank (scorer : String → ℚ) (text : String)
    (hb : text.data.all Char.isWhitespace = true) :
    analyze_sentiment scorer text = ⟨"Neutral", 0⟩ := by
  simp [analyze_sentiment, hb]

/-- Witness for C7: the empty text and a three-space text both yield
`("Neutral", 0.0)` under a scorer that would report `1` on any input. -/
theorem analyze_sentiment_blank_witness :
    analyze_sentiment (fun _t => 1) "" = ⟨"Neutral", 0⟩
    ∧ analyze_sentiment (fun _t => 1) "   " = ⟨"Neutral", 0⟩ :=
  ⟨analyze_sentiment_blank (fun _t => 1) "" (by decide),
   analyze_sentiment_blank (fun _t => 1) "   " (by decide)⟩

/-- C6: a missing or unparseable backing record loads as the empty fallback
journal and `get_all_entries` returns the empty sequence; `_load_data` is a
total function (both exceptions are caught in the code), so no error reaches
the caller. -/
theorem load_failure_empty_journal (now : ℤ) :
    (get_all_entries Disk.missing now).1 = []
    ∧ (get_all_entries Disk.corrupt now).1 = []
    ∧ _load_data Disk.missing now = ⟨[], now, none⟩
    ∧ _load_data Disk.corrupt now = ⟨[], now, none⟩ := by
  refine ⟨rfl, rfl, rfl, rfl⟩

/-- C10: the four read-only operations leave the backing record untouched:
the disk state after each call is the one before it, so `entries`,
`created_at` and `last_updated` are all preserved. -/
theorem read_only_frame (disk : Disk) (days now : ℤ) (format : String) :
    (get_all_entries disk now).2 = disk
    ∧ (get_statistics disk now).2 = disk
    ∧ (export_data disk format now).2 = disk
    ∧ (get_recent_entries disk days now).2 = disk := by
  refine ⟨rfl, rfl, ?_, ?_⟩
  · unfold export_data
    by_cases h1 : lowerStr format = "json"
    · rw [if_pos h1]
    · rw [if_neg h1]
      by_cases h2 : lowerStr format = "csv"
      · rw [if_pos h2]
      · rw [if_neg h2]
  · unfold get_recent_entries
    by_cases h : (get_all_entries disk now).1 = []
    · rw [if_pos h]
    · rw [if_neg h]

/-- Helper: one `add_entry` call appends exactly the constructed entry to the
listing, whatever the initial disk state. -/
theorem get_all_entries_add (disk : Disk) (c : AddCall) (now2 now3 : ℤ) :
    (get_all_entries (add_entry disk c.text c.sentiment c.score c.now).2 now2).1
      = (get_all_entries disk now3).1 ++ [mkEntry c] := by
  cases disk <;> rfl

/-- C3: appending N entries and then listing yields exactly the previous
entries followed by the N new entries in call order; each new entry is
`mkEntry` of its call, i.e. it stores the submitted text, sentiment and score
verbatim together with the minute-resolution call time.  The listing does not
depend on the clock value passed to it (`now1` versus `now2`). -/
theorem add_entries_append (disk : Disk) (calls : List AddCall) (now1 now2 : ℤ) :
    (get_all_entries (addAll disk calls) now1).1
      = (get_all_entries disk now2).1 ++ calls.map mkEntry := by
  induction calls generalizing disk with
  | nil =>
      cases disk <;> simp [addAll, get_all_entries, _load_data]
  | cons c cs ih =>
      have hstep :
          addAll disk (c :: cs)
            = addAll (add_entry disk c.text c.sentiment c.score c.now).2 cs := rfl
      rw [hstep, ih, get_all_entries_add disk c now2 now2]
      simp

/-- Helper: the accumulating loop of `get_recent_entries` is filtering by the
cutoff predicate. -/
theorem recent_loop_eq_filter (cutoff : ℤ) :
    ∀ (l acc : List Entry),
      l.foldl (fun a e => if cutoff ≤ e.timestamp then a ++ [e] else a) acc
        = acc ++ l.filter (fun e => decide (cutoff ≤ e.timestamp)) := by
  intro l
  induction l with
  | nil => intro acc; simp
  | cons x xs ih =>
      intro acc
      by_cases hx : cutoff ≤ x.timestamp
      · simp only [List.foldl_cons, if_pos hx, ih, List.filter_cons,
          decide_eq_true hx, List.append_assoc]
        rfl
      · simp only [List.foldl_cons, if_neg hx, ih, List.filter_cons,
          decide_eq_false hx, if_neg (by simp : ¬(false = true))]

/-- Helper: `get_recent_entries` returns exactly the cutoff-filtered listing
(also in the guarded empty case). -/
theorem get_recent_entries_eq_filter (disk : Disk) (days now : ℤ) :
    (get_recent_entries disk days now).1
      = ((get_all_entries disk now).1).filter
          (fun e => decide (now - days * 86400 ≤ e.timestamp)) := by
  unfold get_recent_entries
  by_cases h : (get_all_entries disk now).1 = []
  · rw [if_pos h, h]
    rfl
  · rw [if_neg h]
    exact recent_loop_eq_filter (now - days * 86400) _ []

/-- C4: `get_recent_entries` returns exactly the subsequence of stored
entries whose (parsed, minute-resolution) timestamp is at least
`now - days` days, where a day is `86400` seconds; an entry exactly on the
boundary is included and an entry strictly older is excluded. -/
theorem get_recent_entries_window (disk : Disk) (days now : ℤ) :
    ((get_recent_entries disk days now).1
        = ((get_all_entries disk now).1).filter
            (fun e => decide (now - days * 86400 ≤ e.timestamp)))
    ∧ (∀ e, e ∈ (get_all_entries disk now).1 →
        now - days * 86400 ≤ e.timestamp →
        e ∈ (get_recent_entries disk days now).1)
    ∧ (∀ e, e ∈ (get_all_entries disk now).1 →
        e.timestamp < now - days * 86400 →
        e ∉ (get_recent_entries disk days now).1) := by
  refine ⟨get_recent_entries_eq_filter disk days now, ?_, ?_⟩
  · intro e he hcut
    rw [get_recent_entries_eq_filter]
    exact List.mem_filter.mpr ⟨he, decide_eq_true hcut⟩
  · intro e he hcut hmem
    rw [get_recent_entries_eq_filter] at hmem
    have := (List.mem_filter.mp hmem).2
    rw [decide_eq_true_eq] at this
    exact absurd this (not_le.mpr hcut)

/-- Witness for C4: with the clock at `0` and a 7-day window, an entry
timestamped exactly 7 days ago (`-604800`) is returned and an entry one
second older is not. -/
theorem get_recent_entries_window_witness :
    ((⟨-604800, "boundary", "Neutral", 0⟩ : Entry)
        ∈ (get_recent_entries
            (Disk.valid ⟨[⟨-604800, "boundary", "Neutral", 0⟩,
                          ⟨-604801, "older", "Neutral", 0⟩], 0, some 0⟩) 7 0).1)
    ∧ ((⟨-604801, "older", "Neutral", 0⟩ : Entry)
        ∉ (get_recent_entries
            (Disk.valid ⟨[⟨-604800, "boundary", "Neutral", 0⟩,
                          ⟨-604801, "older", "Neutral", 0⟩], 0, some 0⟩) 7 0).1) :=
  ⟨(get_recent_entries_window
      (Disk.valid ⟨[⟨-604800, "boundary", "Neutral", 0⟩,
                    ⟨-604801, "older", "Neutral", 0⟩], 0, some 0⟩) 7 0).2.1
      ⟨-604800, "boundary", "Neutral", 0⟩ (by decide) (by decide),
   (get_recent_entries_window
      (Disk.valid ⟨[⟨-604800, "boundary", "Neutral", 0⟩,
                    ⟨-604801, "older", "Neutral", 0⟩], 0, some 0⟩) 7 0).2.2
      ⟨-604801, "older", "Neutral", 0⟩ (by decide) (by decide)⟩

/-- C9: `export_data` fails with `UnsupportedFormat` exactly on the format
arguments that are neither `json` nor `csv` after lower-casing, and for the
two supported formats it returns a payload rather than an error. -/
theorem export_data_dispatch (disk : Disk) (format : String) (now : ℤ) :
    ((export_data disk format now).1 = Except.error ExportError.unsupportedFormat
        ↔ (lowerStr format ≠ "json" ∧ lowerStr format ≠ "csv"))
    ∧ (export_data disk "json" now).1
        = Except.ok (ExportPayload.json (_load_data disk now))
    ∧ (export_data disk "csv" now).1
        = Except.ok (ExportPayload.csv
            (entriesToCsv (get_entries_as_dataframe disk now).1)) := by
  refine ⟨?_, ?_, ?_⟩
  · unfold export_data
    by_cases h1 : lowerStr format = "json"
    · rw [if_pos h1]
      simp [h1]
    · rw [if_neg h1]
      by_cases h2 : lowerStr format = "csv"
      · rw [if_pos h2]
        simp [h1, h2]
      · rw [if_neg h2]
        simp [h1, h2]
  · have hj : lowerStr "json" = "json" := by decide
    unfold export_data
    rw [if_pos hj]
  · have hc1 : lowerStr "csv" ≠ "json" := by decide
    have hc2 : lowerStr "csv" = "csv" := by decide
    unfold export_data
    rw [if_neg hc1, if_pos hc2]

/-- Witness for C9: the format `"xml"` is rejected with `UnsupportedFormat`
on a concrete store state. -/
theorem export_data_dispatch_witness :
    (export_data Disk.corrupt "xml" 0).1
      = Except.error ExportError.unsupportedFormat :=
  (export_data_dispatch Disk.corrupt "xml" 0).1.mpr (by decide)

/-- Counterexample to C2 as stated: on an unparseable backing record the
`json` export is the fallback dict, whose `last_updated` field is absent, so
not all three top-level fields are present. -/
theorem json_export_missing_last_updated :
    ¬ jsonExportAllThree Disk.corrupt 0 := by
  intro h
  have := h ⟨[], 0, none⟩ rfl
  simp at this

/-- C2 (amended): the `json` export returns the loaded record verbatim, so
whenever the backing record is present and parseable and carries
`last_updated` — which every record written by the store does, since
`_save_data` always sets it — all three top-level fields are present; for a
missing or unparseable record the exported fallback carries only `entries`
and `created_at`. -/
theorem json_export_fields (d : JournalData) (now : ℤ)
    (h : d.last_updated.isSome = true) :
    jsonExportAllThree (Disk.valid d) now
    ∧ (∀ d2 now2, ∃ d3, _save_data d2 now2 = Disk.valid d3
        ∧ d3.last_updated.isSome = true) := by
  constructor
  · intro d4 hd4
    have hj : lowerStr "json" = "json" := by decide
    unfold export_data at hd4
    rw [if_pos hj] at hd4
    simp only [Prod.fst] at hd4
    have : _load_data (Disk.valid d) now = d4 := by
      injection hd4 with h1
      injection h1
    rw [← this]
    exact h
  · intro d2 now2
    exact ⟨{ d2 with last_updated := some now2 }, rfl, rfl⟩

/-- Witness for C2 (amended): a concrete parseable record with
`last_updated` set exports with all three fields present. -/
theorem json_export_fields_witness :
    jsonExportAllThree (Disk.valid ⟨[], 3, some 5⟩) 9
    ∧ (∀ d2 now2, ∃ d3, _save_data d2 now2 = Disk.valid d3
        ∧ d3.last_updated.isSome = true) :=
  json_export_fields ⟨[], 3, some 5⟩ 9 (by decide)

/-- C8: the history page's composition — label filter, then membership test
against the separately recomputed recent subset — equals the direct
conjunctive filter on label and recency window, for any concrete label (the
`"All"` sentinel bypasses the label filter in the code). -/
theorem history_filter_equiv (disk : Disk) (label : String) (days now : ℤ)
    (h : label ≠ "All") :
    history_filtered disk label days now
      = direct_conjunctive_filter (get_all_entries disk now).1 label days now := by
  simp only [history_filtered, direct_conjunctive_filter, if_neg h]
  rw [List.filter_filter]
  apply List.filter_congr
  intro e he
  have hrec := get_recent_entries_eq_filter disk days now
  by_cases hd : now - days * 86400 ≤ e.timestamp
  · have hmem : e ∈ (get_recent_entries disk days now).1 := by
      rw [hrec]
      exact List.mem_filter.mpr ⟨he, decide_eq_true hd⟩
    simp [hmem, hd]
  · have hmem : e ∉ (get_recent_entries disk days now).1 := by
      rw [hrec]
      intro hx
      have := (List.mem_filter.mp hx).2
      rw [decide_eq_true_eq] at this
      exact hd this
    simp [hmem, hd]

/-- Witness for C8: on a concrete store with one matching recent entry, one
stale entry and one off-label entry, both filter compositions return exactly
the matching entry. -/
theorem history_filter_equiv_witness :
    history_filtered
        (Disk.valid ⟨[⟨-60, "a", "Positive", 1⟩,
                      ⟨-650000, "b", "Positive", 1⟩,
                      ⟨-60, "c", "Neutral", 0⟩], 0, some 0⟩) "Positive" 7 0
      = direct_conjunctive_filter
          [⟨-60, "a", "Positive", 1⟩,
           ⟨-650000, "b", "Positive", 1⟩,
           ⟨-60, "c", "Neutral", 0⟩] "Positive" 7 0 :=
  history_filter_equiv
    (Disk.valid ⟨[⟨-60, "a", "Positive", 1⟩,
                  ⟨-650000, "b", "Positive", 1⟩,
                  ⟨-60, "c", "Neutral", 0⟩], 0, some 0⟩) "Positive" 7 0 (by decide)

/-- Helper: `find?` on a cons whose head satisfies the predicate stops at the
head. -/
theorem find?_cons_true {α : Type} {p : α → Bool} {a : α} {l : List α}
    (h : p a = true) : (a :: l).find? p = some a :=
  List.find?_cons_of_pos _ h

/-- Helper: `find?` on a cons whose head fails the predicate skips the
head. -/
theorem find?_cons_false {α : Type} {p : α → Bool} {a : α} {l : List α}
    (h : p a = false) : (a :: l).find? p = l.find? p := by
  simp [List.find?_cons_of_neg, h]

/-- Helper: the left fold behind Python `max(entries, key=score)` lands on
the first element of `acc :: xs` whose score is greater than or equal to
every score in `acc :: xs`. -/
theorem foldl_max_eq_find :
    ∀ (xs : List Entry) (acc : Entry),
      some (xs.foldl (fun a y => if a.score < y.score then y else a) acc)
        = (acc :: xs).find?
            (fun e => (acc :: xs).all (fun y => decide (y.score ≤ e.score))) := by
  intro xs
  induction xs with
  | nil =>
      intro acc
      simp [List.find?]
  | cons x xs ih =>
      intro acc
      by_cases hax : acc.score < x.score
      · have hstep :
            (x :: xs).foldl (fun a y => if a.score < y.score then y else a) acc
              = xs.foldl (fun a y => if a.score < y.score then y else a) x := by
          simp [List.foldl_cons, if_pos hax]
        rw [hstep, ih x]
        have hpred :
            (fun (e : Entry) => (x :: xs).all (fun y => decide (y.score ≤ e.score)))
              = (fun (e : Entry) => (acc :: x :: xs).all (fun y => decide (y.score ≤ e.score))) := by
          funext e
          by_cases hxe : x.score ≤ e.score
          · have hae : acc.score ≤ e.score := le_trans (le_of_lt hax) hxe
            simp [List.all_cons, hxe, hae]
          · simp [List.all_cons, hxe]
        rw [hpred]
        have hPacc :
            (fun (e : Entry) =>
              (acc :: x :: xs).all (fun y => decide (y.score ≤ e.score))) acc = false := by
          have hfalse : decide (x.score ≤ acc.score) = false :=
            decide_eq_false (not_le.mpr hax)
          simp [List.all_cons, hfalse]
        exact (@find?_cons_false Entry (fun (e : Entry) => (acc :: x :: xs).all (fun y => decide (y.score ≤ e.score))) acc (x :: xs) hPacc).symm
      · have hxa : x.score ≤ acc.score := le_of_not_lt hax
        have hstep :
            (x :: xs).foldl (fun a y => if a.score < y.score then y else a) acc
              = xs.foldl (fun a y => if a.score < y.score then y else a) acc := by
          simp [List.foldl_cons, if_neg hax]
        rw [hstep, ih acc]
        have hpred :
            (fun (e : Entry) => (acc :: xs).all (fun y => decide (y.score ≤ e.score)))
              = (fun (e : Entry) => (acc :: x :: xs).all (fun y => decide (y.score ≤ e.score))) := by
          funext e
          by_cases hae : acc.score ≤ e.score
          · have hxe : x.score ≤ e.score := le_trans hxa hae
            simp [List.all_cons, hae, hxe]
          · simp [List.all_cons, hae]
        rw [hpred]
        by_cases hPacc :
            (fun (e : Entry) =>
              (acc :: x :: xs).all (fun y => decide (y.score ≤ e.score))) acc = true
        · rw [@find?_cons_true Entry (fun (e : Entry) => (acc :: x :: xs).all (fun y => decide (y.score ≤ e.score))) acc xs hPacc,
              @find?_cons_true Entry (fun (e : Entry) => (acc :: x :: xs).all (fun y => decide (y.score ≤ e.score))) acc (x :: xs) hPacc]
        · have hPaccF :
              (fun (e : Entry) =>
                (acc :: x :: xs).all (fun y => decide (y.score ≤ e.score))) acc = false :=
            eq_false_of_ne_true hPacc
          have hPx :
              (fun (e : Entry) =>
                (acc :: x :: xs).all (fun y => decide (y.score ≤ e.score))) x = false := by
            rcases lt_or_eq_of_le hxa with hlt | heq
            · have hfalse : decide (acc.score ≤ x.score) = false :=
                decide_eq_false (not_le.mpr hlt)
              simp [List.all_cons, hfalse]
            · show ((acc :: x :: xs).all (fun y => decide (y.score ≤ x.score))) = false
              rw [heq]
              exact hPaccF
          rw [@find?_cons_false Entry (fun (e : Entry) => (acc :: x :: xs).all (fun y => decide (y.score ≤ e.score))) acc xs hPaccF,
              @find?_cons_false Entry (fun (e : Entry) => (acc :: x :: xs).all (fun y => decide (y.score ≤ e.score))) acc (x :: xs) hPaccF,
              @find?_cons_false Entry (fun (e : Entry) => (acc :: x :: xs).all (fun y => decide (y.score ≤ e.score))) x xs hPx]

/-- Helper: the left fold behind Python `min(entries, key=score)` lands on
the first element of `acc :: xs` whose score is less than or equal to every
score in `acc :: xs`. -/
theorem foldl_min_eq_find :
    ∀ (xs : List Entry) (acc : Entry),
      some (xs.foldl (fun a y => if y.score < a.score then y else a) acc)
        = (acc :: xs).find?
            (fun e => (acc :: xs).all (fun y => decide (e.score ≤ y.score))) := by
  intro xs
  induction xs with
  | nil =>
      intro acc
      simp [List.find?]
  | cons x xs ih =>
      intro acc
      by_cases hax : x.score < acc.score
      · have hstep :
            (x :: xs).foldl (fun a y => if y.score < a.score then y else a) acc
              = xs.foldl (fun a y => if y.score < a.score then y else a) x := by
          simp [List.foldl_cons, if_pos hax]
        rw [hstep, ih x]
        have hpred :
            (fun (e : Entry) => (x :: xs).all (fun y => decide (e.score ≤ y.score)))
              = (fun (e : Entry) => (acc :: x :: xs).all (fun y => decide (e.score ≤ y.score))) := by
          funext e
          by_cases hxe : e.score ≤ x.score
          · have hae : e.score ≤ acc.score := le_trans hxe (le_of_lt hax)
            simp [List.all_cons, hxe, hae]
          · simp [List.all_cons, hxe]
        rw [hpred]
        have hPacc :
            (fun (e : Entry) =>
              (acc :: x :: xs).all (fun y => decide (e.score ≤ y.score))) acc = false := by
          have hfalse : decide (acc.score ≤ x.score) = false :=
            decide_eq_false (not_le.mpr hax)
          simp [List.all_cons, hfalse]
        exact (@find?_cons_false Entry (fun (e : Entry) => (acc :: x :: xs).all (fun y => decide (e.score ≤ y.score))) acc (x :: xs) hPacc).symm
      · have hxa : acc.score ≤ x.score := le_of_not_lt hax
        have hstep :
            (x :: xs).foldl (fun a y => if y.score < a.score then y else a) acc
              = xs.foldl (fun a y => if y.score < a.score then y else a) acc := by
          simp [List.foldl_cons, if_neg hax]
        rw [hstep, ih acc]
        have hpred :
            (fun (e : Entry) => (acc :: xs).all (fun y => decide (e.score ≤ y.score)))
              = (fun (e : Entry) => (acc :: x :: xs).all (fun y => decide (e.score ≤ y.score))) := by
          funext e
          by_cases hae : e.score ≤ acc.score
          · have hxe : e.score ≤ x.score := le_trans hae hxa
            simp [List.all_cons, hae, hxe]
          · simp [List.all_cons, hae]
        rw [hpred]
        by_cases hPacc :
            (fun (e : Entry) =>
              (acc :: x :: xs).all (fun y => decide (e.score ≤ y.score))) acc = true
        · rw [@find?_cons_true Entry (fun (e : Entry) => (acc :: x :: xs).all (fun y => decide (e.score ≤ y.score))) acc xs hPacc,
              @find?_cons_true Entry (fun (e : Entry) => (acc :: x :: xs).all (fun y => decide (e.score ≤ y.score))) acc (x :: xs) hPacc]
        · have hPaccF :
              (fun (e : Entry) =>
                (acc :: x :: xs).all (fun y => decide (e.score ≤ y.score))) acc = false :=
            eq_false_of_ne_true hPacc
          have hPx :
              (fun (e : Entry) =>
                (acc :: x :: xs).all (fun y => decide (e.score ≤ y.score))) x = false := by
            rcases lt_or_eq_of_le hxa with hlt | heq
            · have hfalse : decide (x.score ≤ acc.score) = false :=
                decide_eq_false (not_le.mpr hlt)
              simp [List.all_cons, hfalse]
            · show ((acc :: x :: xs).all (fun y => decide (x.score ≤ y.score))) = false
              rw [← heq]
              exact hPaccF
          rw [@find?_cons_false Entry (fun (e : Entry) => (acc :: x :: xs).all (fun y => decide (e.score ≤ y.score))) acc xs hPaccF,
              @find?_cons_false Entry (fun (e : Entry) => (acc :: x :: xs).all (fun y => decide (e.score ≤ y.score))) acc (x :: xs) hPaccF,
              @find?_cons_false Entry (fun (e : Entry) => (acc :: x :: xs).all (fun y => decide (e.score ≤ y.score))) x xs hPx]

/-- Helper: Python `max` with the score key returns the first entry attaining
the maximum score. -/
theorem pymax_eq_firstMax (l : List Entry) : pymax l = firstMaxEntry l := by
  cases l with
  | nil => rfl
  | cons x xs => exact foldl_max_eq_find xs x

/-- Helper: Python `min` with the score key returns the first entry attaining
the minimum score. -/
theorem pymin_eq_firstMin (l : List Entry) : pymin l = firstMinEntry l := by
  cases l with
  | nil => rfl
  | cons x xs => exact foldl_min_eq_find xs x

/-- Helper: on a non-empty entry list the statistics carry exactly the Python
`max` / `min` results in `best_day` / `worst_day`. -/
theorem compute_statistics_best_worst_eq (l : List Entry) (h : l ≠ []) :
    (compute_statistics l).best_day = pymax l
    ∧ (compute_statistics l).worst_day = pymin l := by
  constructor <;> simp [compute_statistics, h]

/-- C5: `best_day` is the first entry attaining the maximum score and
`worst_day` the first entry attaining the minimum score (ties broken by first
occurrence); whenever they are reported they bound every entry's score from
above respectively below; a single entry is legitimately reported as both;
and on the empty list both fields are `none`. -/
theorem get_statistics_best_worst (l : List Entry) :
    ((compute_statistics l).best_day = firstMaxEntry l)
    ∧ ((compute_statistics l).worst_day = firstMinEntry l)
    ∧ (∀ b, firstMaxEntry l = some b → b ∈ l ∧ ∀ y ∈ l, y.score ≤ b.score)
    ∧ (∀ w, firstMinEntry l = some w → w ∈ l ∧ ∀ y ∈ l, w.score ≤ y.score)
    ∧ (∀ e : Entry, (compute_statistics [e]).best_day = some e
        ∧ (compute_statistics [e]).worst_day = some e)
    ∧ (l = [] → (compute_statistics l).best_day = none
        ∧ (compute_statistics l).worst_day = none) := by
  refine ⟨?_, ?_, ?_, ?_, ?_, ?_⟩
  · rcases eq_or_ne l [] with h | h
    · subst h; rfl
    · rw [(compute_statistics_best_worst_eq l h).1, pymax_eq_firstMax]
  · rcases eq_or_ne l [] with h | h
    · subst h; rfl
    · rw [(compute_statistics_best_worst_eq l h).2, pymin_eq_firstMin]
  · intro b hb
    refine ⟨List.mem_of_find?_eq_some hb, ?_⟩
    intro y hy
    have hp := List.find?_some hb
    have := List.all_eq_true.mp hp y hy
    exact of_decide_eq_true this
  · intro w hw
    refine ⟨List.mem_of_find?_eq_some hw, ?_⟩
    intro y hy
    have hp := List.find?_some hw
    have := List.all_eq_true.mp hp y hy
    exact of_decide_eq_true this
  · intro e
    constructor <;> simp [compute_statistics, pymax, pymin]
  · intro h
    subst h
    exact ⟨rfl, rfl⟩

/-- Witness for C5: on a concrete two-entry list with a duplicated maximum
score the reported best day is the first entry attaining it, and it bounds
every score. -/
theorem get_statistics_best_worst_witness :
    ((⟨0, "a", "Positive", 2⟩ : Entry)
        ∈ [(⟨60, "z", "Positive", 1⟩ : Entry), ⟨0, "a", "Positive", 2⟩,
           ⟨120, "b", "Positive", 2⟩]
      ∧ ∀ y ∈ [(⟨60, "z", "Positive", 1⟩ : Entry), ⟨0, "a", "Positive", 2⟩,
           ⟨120, "b", "Positive", 2⟩], y.score ≤ (⟨0, "a", "Positive", 2⟩ : Entry).score) :=
  (get_statistics_best_worst
      [⟨60, "z", "Positive", 1⟩, ⟨0, "a", "Positive", 2⟩,
       ⟨120, "b", "Positive", 2⟩]).2.2.1 ⟨0, "a", "Positive", 2⟩ (by decide)

end MindTrace
